import Mathlib

/-!
Shallow embedding of the company_name_matcher matching engine
(src/company_name_matcher/vector_store.py and
src/company_name_matcher/company_name_matcher.py).

Modelling conventions:
* Embedding coordinates are exact rationals (`ℚ`).  The floating-point
  square root inside `np.linalg.norm` is abstracted as an explicit
  function argument `sqrtFn : ℚ → ℚ`; claims that depend on the square
  root being exact hypothesise `sqrtFn x ^ 2 = x` at the points used.
  Division by zero follows Lean's `x / 0 = 0` convention (the Python code
  produces NaN there; the relevant claims are settled on the presence or
  absence of the degenerate division itself, not on the NaN payload).
* `np.argsort` is called by the code with its default kind (introsort),
  whose tie order numpy documents as unspecified.  The model refines the
  unspecified tie order to the stable ascending one; this coincides with
  numpy's actual behaviour on arrays below its 16-element insertion-sort
  threshold, which covers every concrete instance evaluated in this
  file.  No theorem asserts the refined tie order as a universal
  guarantee of the program: the conclusions drawn from `argsortAsc` are
  either tie-order-insensitive or single small-array evaluations inside
  the insertion-sort regime.
* `np.concatenate` raises `ValueError: need at least one array to
  concatenate` when handed an empty list of arrays (vector_store.py
  line 241, reached when `n_probe_clusters = 0` selects no clusters),
  so `search` returns `Except`, with `SearchError.concatenateEmpty`
  modelling that exception; every non-raising Python return is `.ok`.
* The KMeans fitting procedure is external (scikit-learn); it enters the
  model as a function argument `fit` producing centroids and per-row
  labels.  `transform` (distances to centroids) and `predict` (nearest
  centroid) are modelled from their documented behaviour, which is all
  `search` and `add_items` consume.
* The embedding producer (`SentenceTransformer.encode`) and the
  preprocessing function are external collaborators and enter the model
  as function arguments, matching the spec's component boundaries.
* Persistence: the on-disk artifacts are modelled as a `SavedIndex`
  value, and the existence of the two files in the target directory as
  two booleans handed to `saveIndex`.
-/

namespace CNM

/-- An embedding vector: a row of `np.floating` values, modelled over `ℚ`. -/
abbrev Vec := List ℚ

/-- `np.dot(a, b)` for two vectors of equal length. -/
def dot (a b : Vec) : ℚ := (List.zipWith (· * ·) a b).sum

/-- The squared L2 norm `Σ vᵢ²` of a vector. -/
def sumSq (v : Vec) : ℚ := dot v v

/-- `v / c`: numpy elementwise division of a vector by a scalar. -/
def scaleDiv (v : Vec) (c : ℚ) : Vec := v.map (· / c)

/-- `np.linalg.norm(v)` = floating sqrt of the sum of squares. -/
def l2norm (sqrtFn : ℚ → ℚ) (v : Vec) : ℚ := sqrtFn (sumSq v)

/-- `v / np.linalg.norm(v)`: the normalisation applied to queries
(vector_store.py line 224) and to stored rows (lines 45, 301). -/
def normalize (sqrtFn : ℚ → ℚ) (v : Vec) : Vec := scaleDiv v (l2norm sqrtFn v)

/-- The orchestrator's similarity kernel
(`CompanyNameMatcher._cosine_similarity`, company_name_matcher.py lines
471-495): dot product divided by the product of the L2 norms. -/
def cosineSimilarityFull (sqrtFn : ℚ → ℚ) (a b : Vec) : ℚ :=
  dot a b / (l2norm sqrtFn a * l2norm sqrtFn b)

/-- Squared Euclidean distance between two vectors. -/
def euclidSq (a b : Vec) : ℚ := (List.zipWith (fun x y => (x - y) ^ 2) a b).sum

/-! ### np.argsort and the top-k slice -/

/-- The comparison `np.argsort` sorts indices by: value at the index,
ascending. -/
def valLE (vals : List ℚ) (i j : ℕ) : Prop := vals.getD i 0 ≤ vals.getD j 0

instance (vals : List ℚ) : DecidableRel (valLE vals) := fun i j =>
  inferInstanceAs (Decidable (vals.getD i 0 ≤ vals.getD j 0))

/-- `np.argsort(vals)`: the indices `0 .. len-1` sorted by their value,
ascending.  The code uses numpy's default sort kind, whose tie order is
unspecified; the model refines ties to the stable (ascending-index)
order, numpy's actual behaviour in its small-array insertion-sort
regime. -/
def argsortAsc (vals : List ℚ) : List ℕ :=
  List.insertionSort (valLE vals) (List.range vals.length)

/-- The Python slice `xs[-k:]`: the last `k` elements — except that for
`k = 0` the slice `[-0:]` is `[0:]`, the whole list. -/
def takeLast (xs : List ℕ) (k : ℕ) : List ℕ :=
  if k = 0 then xs else xs.drop (xs.length - k)

/-- `np.argsort(vals)[-k:][::-1]` (vector_store.py lines 230, 256): the
indices of the `k` largest values, in descending value order. -/
def exactTopIndices (vals : List ℚ) (k : ℕ) : List ℕ :=
  (takeLast (argsortAsc vals) k).reverse

/-! ### The vector store -/

/-- The fitted KMeans model: its cluster centroids. -/
structure KMeansModel where
  centers : List Vec
deriving DecidableEq, Repr

/-- `kmeans.transform(q)`: the (floating) Euclidean distance from `q` to
each centroid. -/
def KMeansModel.transform (sqrtFn : ℚ → ℚ) (m : KMeansModel) (q : Vec) : List ℚ :=
  m.centers.map (fun c => sqrtFn (euclidSq q c))

/-- `kmeans.predict(v)`: the index of the nearest centroid (lowest index
on ties). -/
def KMeansModel.predict (sqrtFn : ℚ → ℚ) (m : KMeansModel) (v : Vec) : ℕ :=
  (argsortAsc (m.transform sqrtFn v)).headD 0

/-- The state of `VectorStore` (vector_store.py lines 38-48). -/
structure VectorStore where
  embeddings : List Vec
  items : List String
  kmeans : Option KMeansModel
  clusters : Option (List ℕ)
deriving DecidableEq, Repr

/-- `VectorStore.__init__` (vector_store.py lines 38-48).  The dummy
sentinel — exactly one row, whose first coordinate is `0`, with items
`["dummy"]` — is stored as-is; every other input has each row divided by
its own L2 norm. -/
def VectorStore.init (sqrtFn : ℚ → ℚ) (embeddings : List Vec) (items : List String) :
    VectorStore :=
  if embeddings.length = 1 ∧ (embeddings.headD []).headD 0 = 0 ∧ items = ["dummy"] then
    ⟨embeddings, items, none, none⟩
  else
    ⟨embeddings.map (normalize sqrtFn), items, none, none⟩

/-- The cluster count `build_index` actually hands to KMeans
(vector_store.py lines 81-92): `none` when the catalog has at most one
item (index creation is skipped), the reduced count when the catalog is
strictly smaller than the request, the request itself otherwise. -/
def effectiveNClusters (nItems nClusters : ℕ) : Option ℕ :=
  if nItems ≤ 1 then none
  else if nItems < nClusters then some (max 1 (min (nItems - 1) (nItems / 2)))
  else some nClusters

/-- `VectorStore.build_index` (vector_store.py lines 50-96), with the
external KMeans fit abstracted as `fit n rows = (model, labels)`.  The
`save_path` side effect is modelled separately by `saveIndex`. -/
def VectorStore.buildIndex (fit : ℕ → List Vec → KMeansModel × List ℕ)
    (s : VectorStore) (nClusters : ℕ) : VectorStore :=
  if s.items.length ≤ 1 then
    { s with kmeans := none, clusters := some (List.replicate s.items.length 0) }
  else
    let n := if s.items.length < nClusters
      then max 1 (min (s.items.length - 1) (s.items.length / 2))
      else nClusters
    let fitted := fit n s.embeddings
    { s with kmeans := some fitted.1, clusters := some fitted.2 }

/-- The artifacts `save_index` writes: the embeddings/items file and the
joblib blob with the model and the cluster labels. -/
structure SavedIndex where
  embeddings : List Vec
  items : List String
  kmeans : KMeansModel
  clusters : List ℕ
deriving DecidableEq, Repr

/-- The two failure modes of `save_index`: `ValueError` when no index was
built, `FileExistsError` when artifacts exist and `overwrite` is off. -/
inductive SaveError where
  | noIndex
  | fileExists
deriving DecidableEq, Repr

/-- `VectorStore.save_index` (vector_store.py lines 98-141).  `h5Exists`
and `modelExists` say whether `embeddings.h5` / `kmeans_model.joblib`
already exist in the target directory; `overwrite` defaults to `true` at
every call site. -/
def VectorStore.saveIndex (s : VectorStore) (overwrite h5Exists modelExists : Bool) :
    Except SaveError SavedIndex :=
  match s.kmeans with
  | none => .error .noIndex
  | some km =>
    if !overwrite && (h5Exists || modelExists) then .error .fileExists
    else .ok ⟨s.embeddings, s.items, km, s.clusters.getD []⟩

/-- `VectorStore.load_index` (vector_store.py lines 143-175): replaces
every field of the store with the saved artifacts, verbatim. -/
def VectorStore.loadIndex (s : VectorStore) (d : SavedIndex) : VectorStore :=
  { s with embeddings := d.embeddings, items := d.items,
           kmeans := some d.kmeans, clusters := some d.clusters }

/-- The exact-search body of `VectorStore.search` (vector_store.py lines
227-231), applied to the already-normalised query `qn`: similarities are
plain dot products (the store's `_cosine_similarity`, line 264), `k` is
clamped to the catalog size, and the top indices come from
`argsort[-k:][::-1]`. -/
def VectorStore.searchExact (s : VectorStore) (qn : Vec) (k : ℕ) : List (String × ℚ) :=
  let sims := s.embeddings.map (fun row => dot qn row)
  let k' := min k s.items.length
  (exactTopIndices sims k').map (fun i => (s.items.getD i "", sims.getD i 0))

/-- The union of catalog row indices in the `nProbe` clusters nearest to
the query (vector_store.py lines 238-243): `np.where(clusters == c)[0]`
concatenated over the closest clusters in order. -/
def probeIndices (clusters : List ℕ) (distances : List ℚ) (nProbe : ℕ) : List ℕ :=
  ((argsortAsc distances).take nProbe).flatMap (fun c =>
    (List.range clusters.length).filter (fun i => clusters.getD i 0 = c))

/-- The exception `search` can raise: `np.concatenate` at
vector_store.py line 241 fails with `ValueError: need at least one array
to concatenate` when `closest_clusters` is empty, i.e. when
`n_probe_clusters = 0` (the list comprehension then supplies no arrays). -/
inductive SearchError where
  | concatenateEmpty
deriving DecidableEq, Repr

/-- `VectorStore.search` (vector_store.py lines 177-258).  A `.ok` value
is a normal Python return; `.error .concatenateEmpty` is the ValueError
`np.concatenate([])` raises at line 241 when no cluster was selected —
note that this happens BEFORE the `len(all_indices) == 0` fallback
check, which is only reachable when at least one cluster was probed.
The recursive fallback `self.search(query_embedding, k,
use_approx=False)` at line 248 is inlined: the catalog is known
non-empty there, so it normalises the already-normalised query once
more and runs the exact body (which cannot raise). -/
def VectorStore.search (sqrtFn : ℚ → ℚ) (s : VectorStore) (q : Vec) (k : ℕ)
    (useApprox : Bool) (nProbeClusters : ℕ) : Except SearchError (List (String × ℚ)) :=
  if s.items.length = 0 then .ok []
  else
    let qn := normalize sqrtFn q
    match s.kmeans with
    | none => .ok (s.searchExact qn k)
    | some km =>
      if useApprox = false then .ok (s.searchExact qn k)
      else
        let clusters := s.clusters.getD []
        let closest := (argsortAsc (km.transform sqrtFn qn)).take nProbeClusters
        if closest = [] then .error .concatenateEmpty
        else
          let allIndices := probeIndices clusters (km.transform sqrtFn qn) nProbeClusters
          if allIndices.length = 0 then
            .ok (s.searchExact (normalize sqrtFn qn) k)
          else
            let csims := allIndices.map (fun i => dot qn (s.embeddings.getD i []))
            let k' := min k allIndices.length
            .ok ((exactTopIndices csims k').map (fun j =>
              (s.items.getD (allIndices.getD j 0) "", csims.getD j 0)))

/-- `VectorStore.add_items` (vector_store.py lines 266-316): normalises
the new rows, appends rows and labels, and — only when a partition model
exists — appends the predicted cluster of each new row.  The `save_dir`
side effect is modelled separately by `saveIndex`. -/
def VectorStore.addItems (sqrtFn : ℚ → ℚ) (s : VectorStore)
    (newEmbeddings : List Vec) (newItems : List String) : VectorStore :=
  let normalized := newEmbeddings.map (normalize sqrtFn)
  { s with
    embeddings := s.embeddings ++ normalized,
    items := s.items ++ newItems,
    clusters := match s.kmeans with
      | none => s.clusters
      | some km => some (s.clusters.getD [] ++ normalized.map (km.predict sqrtFn)) }

/-! ### The orchestrator -/

/-- The exact branch of `CompanyNameMatcher._find_matches_single`
(company_name_matcher.py lines 342-356): full cosine similarity of the
target against every stored row, threshold filter over
`zip(items, similarities)`, then Python's stable `sorted(...,
reverse=True)` cut to `k`. -/
def findMatchesSingleExact (sqrtFn : ℚ → ℚ) (s : VectorStore) (t : Vec)
    (threshold : ℚ) (k : ℕ) : List (String × ℚ) :=
  let sims := s.embeddings.map (fun row => cosineSimilarityFull sqrtFn t row)
  let kept := (s.items.zip sims).filter (fun p => threshold ≤ p.2)
  (List.insertionSort (fun p q : String × ℚ => q.2 ≤ p.2) kept).take k

/-! ### The embedding cache -/

/-- The embedding cache: a Python dict in insertion order, keyed by
preprocessed text. -/
abbrev Cache := List (String × Vec)

/-- `get_embedding` with an empty cache at capacity 0 executes
`next(iter({}))`, which raises `StopIteration`. -/
inductive CacheError where
  | stopIteration
deriving DecidableEq, Repr

/-- `CompanyNameMatcher.get_embedding` (company_name_matcher.py lines
90-132): preprocess, consult the cache on hit, otherwise call the
producer for the single text and insert, evicting the first-inserted
entry when the cache is at capacity (`len >= cache_size`). -/
def getEmbedding (preprocess : String → String) (encode : String → Vec)
    (useCache : Bool) (cacheSize : ℕ) (cache : Cache) (name : String) :
    Except CacheError (Vec × Cache) :=
  let key := preprocess name
  if useCache then
    match (cache.find? (fun p => p.1 = key)).map (fun p => p.2) with
    | some v => .ok (v, cache)
    | none =>
      let emb := encode key
      if cacheSize ≤ cache.length then
        match cache with
        | [] => .error .stopIteration
        | _ :: rest => .ok (emb, rest ++ [(key, emb)])
      else .ok (emb, cache ++ [(key, emb)])
  else .ok (encode key, cache)

/-- The cache after a sequence of `get_embedding` calls; a call that
raises leaves the cache unchanged. -/
def runGetEmbeddings (preprocess : String → String) (encode : String → Vec)
    (useCache : Bool) (cacheSize : ℕ) (names : List String) (cache : Cache) : Cache :=
  names.foldl (fun c name =>
    match getEmbedding preprocess encode useCache cacheSize c name with
    | .ok r => r.2
    | .error _ => c) cache

/-- `CompanyNameMatcher.get_embeddings` (company_name_matcher.py lines
134-162): the batch path preprocesses every name and hands the whole
preprocessed list to the producer in one call.  It does not consult or
update the cache. -/
def getEmbeddings (preprocess : String → String) (encodeBatch : List String → List Vec)
    (names : List String) : List Vec :=
  encodeBatch (names.map preprocess)

/-- The exact list of texts `get_embeddings` hands to the embedding
producer (company_name_matcher.py lines 161-162): all preprocessed names,
regardless of the cache. -/
def getEmbeddingsProducerInput (preprocess : String → String) (names : List String) :
    List String :=
  names.map preprocess

/-! ### Predicates used by the claims -/

/-- The stable ascending tie order of `np.argsort`: strictly smaller
value first; equal values in ascending index (catalog insertion) order. -/
def lexAsc (vals : List ℚ) (i j : ℕ) : Prop :=
  vals.getD i 0 < vals.getD j 0 ∨ (vals.getD i 0 = vals.getD j 0 ∧ i < j)

/-- The order in which `argsort[-k:][::-1]` emits indices: strictly
larger value first; equal values in DESCENDING index order, i.e. reverse
catalog insertion order. -/
def lexDesc (vals : List ℚ) (i j : ℕ) : Prop :=
  vals.getD j 0 < vals.getD i 0 ∨ (vals.getD i 0 = vals.getD j 0 ∧ j < i)

instance (vals : List ℚ) (i j : ℕ) : Decidable (lexAsc vals i j) := by
  unfold lexAsc; infer_instance

instance (vals : List ℚ) (i j : ℕ) : Decidable (lexDesc vals i j) := by
  unfold lexDesc; infer_instance

/-- A well-behaved input row: nonzero norm, and the floating square root
is exact at its sum of squares (the idealisation of "within floating
tolerance"). -/
def GoodRow (sqrtFn : ℚ → ℚ) (v : Vec) : Prop :=
  sumSq v ≠ 0 ∧ sqrtFn (sumSq v) ^ 2 = sumSq v

instance (sqrtFn : ℚ → ℚ) (v : Vec) : Decidable (GoodRow sqrtFn v) := by
  unfold GoodRow; infer_instance

/-- The spec's normalisation invariant: every stored embedding has unit
L2 norm, i.e. its sum of squares is `1`. -/
def UnitRows (s : VectorStore) : Prop := ∀ v ∈ s.embeddings, sumSq v = 1

instance (s : VectorStore) : Decidable (UnitRows s) := by
  unfold UnitRows; infer_instance

/-! ### Lemmas: normalisation -/

theorem sumSq_eq_sum_map_sq (v : Vec) : sumSq v = (v.map (fun a => a * a)).sum := by
  simp [sumSq, dot, List.zipWith_same]

theorem sumSq_scaleDiv (v : Vec) (c : ℚ) : sumSq (scaleDiv v c) = sumSq v / c ^ 2 := by
  simp only [sumSq_eq_sum_map_sq, scaleDiv, List.map_map]
  have h : ((fun a => a * a) ∘ fun a : ℚ => a / c) = fun a : ℚ => (a * a) * (c ^ 2)⁻¹ := by
    funext a
    simp only [Function.comp, div_eq_mul_inv, sq, mul_inv]
    ring
  rw [h, div_eq_mul_inv, ← List.sum_map_mul_right]

theorem sumSq_normalize (sqrtFn : ℚ → ℚ) (v : Vec)
    (hex : sqrtFn (sumSq v) ^ 2 = sumSq v) (h0 : sumSq v ≠ 0) :
    sumSq (normalize sqrtFn v) = 1 := by
  rw [normalize, l2norm, sumSq_scaleDiv, hex, div_self h0]

theorem normalize_idempotent (sqrtFn : ℚ → ℚ) (v : Vec)
    (hex : sqrtFn (sumSq v) ^ 2 = sumSq v) (h1 : sqrtFn 1 = 1) :
    normalize sqrtFn (normalize sqrtFn v) = normalize sqrtFn v := by
  by_cases h0 : sumSq v = 0
  · have hc : sqrtFn (sumSq v) = 0 := by
      have h2 : sqrtFn (sumSq v) ^ 2 = 0 := by rw [hex, h0]
      exact pow_eq_zero_iff two_ne_zero |>.mp h2
    have e1 : normalize sqrtFn v = v.map (fun _ => (0 : ℚ)) := by
      simp [normalize, scaleDiv, l2norm, hc, div_zero]
    have e2 : sumSq (v.map (fun _ => (0 : ℚ))) = 0 := by
      rw [sumSq_eq_sum_map_sq, List.map_map]
      exact List.sum_eq_zero (by simp)
    rw [e1, normalize, l2norm, e2]
    rw [h0] at hc
    rw [hc]
    simp [scaleDiv, List.map_map, div_zero]
  · have hn : sumSq (normalize sqrtFn v) = 1 := sumSq_normalize sqrtFn v hex h0
    show scaleDiv (normalize sqrtFn v) (l2norm sqrtFn (normalize sqrtFn v)) = normalize sqrtFn v
    rw [l2norm, hn, h1]
    simp [scaleDiv]

/-! ### Lemmas: argsort -/

instance (vals : List ℚ) : IsTotal ℕ (valLE vals) := ⟨fun _ _ => le_total _ _⟩

instance (vals : List ℚ) : IsTrans ℕ (valLE vals) := ⟨fun _ _ _ h1 h2 => le_trans h1 h2⟩

theorem length_argsortAsc (vals : List ℚ) : (argsortAsc vals).length = vals.length := by
  rw [argsortAsc, List.length_insertionSort, List.length_range]

theorem mem_argsortAsc {vals : List ℚ} {i : ℕ} : i ∈ argsortAsc vals ↔ i < vals.length := by
  rw [argsortAsc, List.mem_insertionSort, List.mem_range]

theorem sorted_argsortAsc (vals : List ℚ) : List.Sorted (valLE vals) (argsortAsc vals) :=
  List.sorted_insertionSort _ _

theorem pairwise_lex_orderedInsert (vals : List ℚ) (a : ℕ) (l : List ℕ)
    (ha : ∀ x ∈ l, a < x) (hl : l.Pairwise (lexAsc vals)) :
    (List.orderedInsert (valLE vals) a l).Pairwise (lexAsc vals) := by
  induction l with
  | nil => simp [List.orderedInsert]
  | cons b t ih =>
    rw [List.orderedInsert]
    by_cases hab : valLE vals a b
    · rw [if_pos hab]
      refine List.Pairwise.cons ?_ hl
      intro x hx
      have hax : a < x := ha x hx
      have hvx : vals.getD a 0 ≤ vals.getD x 0 := by
        rcases List.mem_cons.mp hx with h | h
        · exact h ▸ hab
        · exact le_trans hab ((List.rel_of_pairwise_cons hl h).elim le_of_lt (fun p => le_of_eq p.1))
      rcases lt_or_eq_of_le hvx with h | h
      · exact Or.inl h
      · exact Or.inr ⟨h, hax⟩
    · rw [if_neg hab]
      have hba : vals.getD b 0 < vals.getD a 0 := lt_of_not_le hab
      refine List.Pairwise.cons ?_ (ih (fun x hx => ha x (List.mem_cons_of_mem _ hx)) hl.of_cons)
      intro x hx
      rcases (List.mem_orderedInsert _).mp hx with h | h
      · exact h ▸ Or.inl hba
      · exact List.rel_of_pairwise_cons hl h

theorem pairwise_lex_insertionSort (vals : List ℚ) (l : List ℕ)
    (hl : l.Pairwise (· < ·)) :
    (List.insertionSort (valLE vals) l).Pairwise (lexAsc vals) := by
  induction l with
  | nil => simp [List.insertionSort]
  | cons a t ih =>
    have ha : ∀ x ∈ List.insertionSort (valLE vals) t, a < x := fun x hx =>
      List.rel_of_pairwise_cons hl ((List.mem_insertionSort _).mp hx)
    exact pairwise_lex_orderedInsert vals a _ ha (ih hl.of_cons)

theorem pairwise_lex_argsortAsc (vals : List ℚ) :
    (argsortAsc vals).Pairwise (lexAsc vals) :=
  pairwise_lex_insertionSort vals _ (List.pairwise_lt_range _)

theorem pairwise_lexDesc_exactTopIndices (vals : List ℚ) (k : ℕ) :
    (exactTopIndices vals k).Pairwise (lexDesc vals) := by
  have h : (takeLast (argsortAsc vals) k).Pairwise (lexAsc vals) := by
    rw [takeLast]
    split
    · exact pairwise_lex_argsortAsc vals
    · exact (pairwise_lex_argsortAsc vals).sublist (List.drop_sublist _ _)
  rw [exactTopIndices, List.pairwise_reverse]
  refine h.imp ?_
  rintro a b (hab | ⟨he, hab⟩)
  · exact Or.inl hab
  · exact Or.inr ⟨he.symm, hab⟩

theorem length_takeLast (xs : List ℕ) (k : ℕ) (hk : k ≠ 0) (hkx : k ≤ xs.length) :
    (takeLast xs k).length = k := by
  rw [takeLast, if_neg hk, List.length_drop]
  omega

/-! ### Lemmas: stability of Python's sorted -/

theorem filter_orderedInsert_pos {α} (r : α → α → Prop) [DecidableRel r] (p : α → Bool)
    (a : α) (l : List α) (hpa : p a = true) (h : ∀ b ∈ l, p b = true → r a b) :
    (List.orderedInsert r a l).filter p = a :: l.filter p := by
  have ht : (l.takeWhile (fun b => decide ¬ r a b)).filter p = [] := by
    rw [List.filter_eq_nil_iff]
    intro b hb
    have h1 : ¬ r a b := by simpa using List.mem_takeWhile_imp hb
    have h2 : b ∈ l := (List.takeWhile_sublist _).mem hb
    intro hpb
    exact h1 (h b h2 hpb)
  rw [List.orderedInsert_eq_take_drop, List.filter_append, ht, List.nil_append,
    List.filter_cons_of_pos hpa]
  conv_rhs => rw [← List.takeWhile_append_dropWhile (fun b => decide ¬ r a b) l]
  rw [List.filter_append, ht, List.nil_append]

theorem filter_orderedInsert_neg {α} (r : α → α → Prop) [DecidableRel r] (p : α → Bool)
    (a : α) (l : List α) (hpa : p a = false) :
    (List.orderedInsert r a l).filter p = l.filter p := by
  rw [List.orderedInsert_eq_take_drop, List.filter_append, List.filter_cons_of_neg (by simp [hpa])]
  conv_rhs => rw [← List.takeWhile_append_dropWhile (fun b => decide ¬ r a b) l]
  rw [List.filter_append]

theorem filter_insertionSort {α} (r : α → α → Prop) [DecidableRel r] (p : α → Bool)
    (l : List α) (h : ∀ x ∈ l, ∀ y ∈ l, p x = true → p y = true → r x y) :
    (List.insertionSort r l).filter p = l.filter p := by
  induction l with
  | nil => rfl
  | cons a t ih =>
    have hsub : ∀ x ∈ t, ∀ y ∈ t, p x = true → p y = true → r x y := fun x hx y hy =>
      h x (List.mem_cons_of_mem _ hx) y (List.mem_cons_of_mem _ hy)
    show (List.orderedInsert r a (List.insertionSort r t)).filter p = (a :: t).filter p
    by_cases hpa : p a = true
    · rw [filter_orderedInsert_pos r p a _ hpa
        (fun b hb hpb => h a (List.mem_cons_self _ _) b
          (List.mem_cons_of_mem _ ((List.mem_insertionSort _).mp hb)) hpa hpb),
        ih hsub, List.filter_cons_of_pos hpa]
    · rw [filter_orderedInsert_neg r p a _ (Bool.not_eq_true _ ▸ hpa),
        ih hsub, List.filter_cons_of_neg (by simpa using hpa)]

/-! ### Lemmas: unfolding the search branches -/

theorem takeLast_sublist (xs : List ℕ) (k : ℕ) : List.Sublist (takeLast xs k) xs := by
  rw [takeLast]
  split
  · exact List.Sublist.refl _
  · exact List.drop_sublist _ _

theorem search_empty (sqrtFn : ℚ → ℚ) (s : VectorStore) (q : Vec) (k : ℕ)
    (useApprox : Bool) (nProbe : ℕ) (h : s.items.length = 0) :
    VectorStore.search sqrtFn s q k useApprox nProbe = .ok [] := by
  rw [VectorStore.search, if_pos h]

theorem search_exact_mode (sqrtFn : ℚ → ℚ) (s : VectorStore) (q : Vec) (k nProbe : ℕ)
    (hne : s.items.length ≠ 0) :
    VectorStore.search sqrtFn s q k false nProbe
      = .ok (s.searchExact (normalize sqrtFn q) k) := by
  rw [VectorStore.search, if_neg hne]
  cases hkm : s.kmeans <;> simp [hkm]

theorem search_approx_no_model (sqrtFn : ℚ → ℚ) (s : VectorStore) (q : Vec) (k nProbe : ℕ)
    (hne : s.items.length ≠ 0) (hkm : s.kmeans = none) :
    VectorStore.search sqrtFn s q k true nProbe
      = .ok (s.searchExact (normalize sqrtFn q) k) := by
  rw [VectorStore.search, if_neg hne]
  simp [hkm]

theorem search_approx_fallback (sqrtFn : ℚ → ℚ) (s : VectorStore) (q : Vec) (k nProbe : ℕ)
    (km : KMeansModel) (hne : s.items.length ≠ 0) (hkm : s.kmeans = some km)
    (hcl : (argsortAsc (km.transform sqrtFn (normalize sqrtFn q))).take nProbe ≠ [])
    (hpi : probeIndices (s.clusters.getD [])
      (km.transform sqrtFn (normalize sqrtFn q)) nProbe = []) :
    VectorStore.search sqrtFn s q k true nProbe
      = .ok (s.searchExact (normalize sqrtFn (normalize sqrtFn q)) k) := by
  rw [VectorStore.search, if_neg hne]
  simp [hkm, hcl, hpi]

theorem search_approx_concat_error (sqrtFn : ℚ → ℚ) (s : VectorStore) (q : Vec)
    (k nProbe : ℕ) (km : KMeansModel) (hne : s.items.length ≠ 0)
    (hkm : s.kmeans = some km)
    (hcl : (argsortAsc (km.transform sqrtFn (normalize sqrtFn q))).take nProbe = []) :
    VectorStore.search sqrtFn s q k true nProbe = .error .concatenateEmpty := by
  rw [VectorStore.search, if_neg hne]
  simp [hkm, hcl]

/-! ### Lemmas: the exact search body -/

theorem searchExact_length (s : VectorStore) (qn : Vec) (k : ℕ)
    (hlen : s.embeddings.length = s.items.length) (hne : s.items.length ≠ 0) (hk : 1 ≤ k) :
    (s.searchExact qn k).length = min k s.items.length := by
  rw [VectorStore.searchExact]
  rw [List.length_map, exactTopIndices, List.length_reverse, length_takeLast]
  · omega
  · rw [length_argsortAsc, List.length_map, hlen]
    exact min_le_right _ _

theorem searchExact_desc (s : VectorStore) (qn : Vec) (k : ℕ) :
    (s.searchExact qn k).Pairwise (fun p₁ p₂ : String × ℚ => p₂.2 ≤ p₁.2) := by
  rw [VectorStore.searchExact]
  rw [List.pairwise_map]
  refine (pairwise_lexDesc_exactTopIndices _ _).imp ?_
  rintro i j (h | ⟨he, _⟩)
  · exact le_of_lt h
  · exact le_of_eq he.symm

theorem searchExact_mem (s : VectorStore) (qn : Vec) (k : ℕ)
    (hlen : s.embeddings.length = s.items.length) :
    ∀ p ∈ s.searchExact qn k, ∃ i, i < s.items.length ∧
      p = (s.items.getD i "", dot qn (s.embeddings.getD i [])) := by
  intro p hp
  rw [VectorStore.searchExact] at hp
  rcases List.mem_map.mp hp with ⟨i, hi, rfl⟩
  have hi' : i < s.embeddings.length := by
    have h1 : i ∈ takeLast (argsortAsc (s.embeddings.map (fun row => dot qn row))) _ :=
      List.mem_reverse.mp hi
    have h2 := (takeLast_sublist _ _).mem h1
    rw [mem_argsortAsc, List.length_map] at h2
    exact h2
  refine ⟨i, hlen ▸ hi', ?_⟩
  have hs : (s.embeddings.map (fun row => dot qn row)).getD i 0
      = dot qn (s.embeddings.getD i []) := by
    rw [List.getD_eq_getElem _ _ (by simpa using hi'), List.getElem_map,
      List.getD_eq_getElem _ _ hi']
  rw [hs]

theorem exactTopIndices_topk (vals : List ℚ) (k : ℕ) (hk : k ≠ 0) :
    ∀ j < vals.length, j ∉ exactTopIndices vals k →
      ∀ i ∈ exactTopIndices vals k, vals.getD j 0 ≤ vals.getD i 0 := by
  intro j hj hjn i hi
  rw [exactTopIndices, List.mem_reverse] at hi hjn
  rw [takeLast, if_neg hk] at hi hjn
  have hjmem : j ∈ argsortAsc vals := mem_argsortAsc.mpr hj
  have hsplit : j ∈ (argsortAsc vals).take ((argsortAsc vals).length - k)
      ++ (argsortAsc vals).drop ((argsortAsc vals).length - k) := by
    rw [List.take_append_drop]
    exact hjmem
  rcases List.mem_append.mp hsplit with h | h
  · exact List.Sorted.rel_of_mem_take_of_mem_drop (sorted_argsortAsc vals) h hi
  · exact absurd h hjn

/-! ### The claims -/

/-- C10: for every query vector, every `k`, every mode and every
`n_probe_clusters`, `search` on a store whose catalog contains zero
entries returns the empty list (a normal `.ok` return, never the raising
path) — the `len(self.items) == 0` early return of vector_store.py lines
219-221 precedes everything else. -/
theorem C10_empty_catalog_search (sqrtFn : ℚ → ℚ) (s : VectorStore) (q : Vec) (k : ℕ)
    (useApprox : Bool) (nProbe : ℕ) (h : s.items = []) :
    VectorStore.search sqrtFn s q k useApprox nProbe = .ok [] :=
  search_empty sqrtFn s q k useApprox nProbe (by rw [h]; rfl)

theorem C10_witness :
    VectorStore.search (fun x => x) ⟨[], [], none, none⟩ [1] 5 true 3 = .ok [] :=
  C10_empty_catalog_search (fun x => x) ⟨[], [], none, none⟩ [1] 5 true 3 rfl

/-- C1: exact-mode search on a non-empty catalog normalises the query to
unit length, computes the cosine similarity (dot product against the
stored rows) for every catalog row, and returns a sequence of
(label, score) pairs of length exactly `min k catalog_size`, sorted in
descending score order; every omitted row's score is at most every
returned row's score.  The unit-length and exactness hypotheses on
`sqrtFn` idealise "within floating tolerance". -/
theorem C1_exact_search_contract (sqrtFn : ℚ → ℚ) (s : VectorStore) (q : Vec)
    (k nProbe : ℕ)
    (hlen : s.embeddings.length = s.items.length) (hne : s.items.length ≠ 0)
    (hk : 1 ≤ k) (hq : sqrtFn (sumSq q) ^ 2 = sumSq q) (hq0 : sumSq q ≠ 0) :
    sumSq (normalize sqrtFn q) = 1
    ∧ VectorStore.search sqrtFn s q k false nProbe
        = .ok (s.searchExact (normalize sqrtFn q) k)
    ∧ (s.searchExact (normalize sqrtFn q) k).length = min k s.items.length
    ∧ (s.searchExact (normalize sqrtFn q) k).Pairwise
        (fun p₁ p₂ : String × ℚ => p₂.2 ≤ p₁.2)
    ∧ (∀ p ∈ s.searchExact (normalize sqrtFn q) k, ∃ i, i < s.items.length ∧
        p = (s.items.getD i "", dot (normalize sqrtFn q) (s.embeddings.getD i [])))
    ∧ (∀ j < s.items.length,
        j ∉ exactTopIndices (s.embeddings.map (fun row => dot (normalize sqrtFn q) row))
            (min k s.items.length) →
        ∀ i ∈ exactTopIndices (s.embeddings.map (fun row => dot (normalize sqrtFn q) row))
            (min k s.items.length),
        (s.embeddings.map (fun row => dot (normalize sqrtFn q) row)).getD j 0
          ≤ (s.embeddings.map (fun row => dot (normalize sqrtFn q) row)).getD i 0) := by
  have he := search_exact_mode sqrtFn s q k nProbe hne
  refine ⟨sumSq_normalize sqrtFn q hq hq0, he, ?_, ?_, ?_, ?_⟩
  · exact searchExact_length s _ k hlen hne hk
  · exact searchExact_desc s _ k
  · exact searchExact_mem s _ k hlen
  · intro j hj
    have hmin : min k s.items.length ≠ 0 := by omega
    exact exactTopIndices_topk _ _ hmin j (by rw [List.length_map, hlen]; exact hj)

theorem C1_witness :
    (1 : ℕ) ≤ 1
    ∧ ((VectorStore.init (fun x => x) [[0, 1], [1, 0]] ["a", "b"]).searchExact
          (normalize (fun x => x) [1, 0]) 1).length
        = min 1 (VectorStore.init (fun x => x) [[0, 1], [1, 0]] ["a", "b"]).items.length :=
  ⟨le_refl 1,
    (C1_exact_search_contract (fun x => x)
      (VectorStore.init (fun x => x) [[0, 1], [1, 0]] ["a", "b"]) [1, 0] 1 3
      (by norm_num [VectorStore.init, normalize, scaleDiv, l2norm, sumSq, dot])
      (by norm_num [VectorStore.init, normalize, scaleDiv, l2norm, sumSq, dot])
      (le_refl 1)
      (by norm_num [sumSq, dot])
      (by norm_num [sumSq, dot])).2.2.1⟩

/-- C2 counterexample: two catalog rows with identical embeddings and a
query equal to them give two tied scores, and `VectorStore.search`
returns them in REVERSE insertion order — `[("b", 1), ("a", 1)]` — not
the original catalog insertion order the claim requires. -/
theorem C2_counterexample :
    VectorStore.search (fun x => x)
        (VectorStore.init (fun x => x) [[1, 0], [1, 0]] ["a", "b"]) [1, 0] 2 false 3
      = .ok [("b", 1), ("a", 1)]
    ∧ ([("b", 1), ("a", 1)] : List (String × ℚ)) ≠ [("a", 1), ("b", 1)] := by
  constructor
  · norm_num [VectorStore.init, VectorStore.search, VectorStore.searchExact, normalize,
      scaleDiv, l2norm, sumSq, dot, exactTopIndices, takeLast, argsortAsc, valLE,
      List.insertionSort, List.orderedInsert, List.range_succ]
  · intro h
    have h2 : ("b", (1 : ℚ)) = ("a", (1 : ℚ)) := List.head_eq_of_cons_eq h
    have h3 : "b" = "a" := congrArg Prod.fst h2
    exact absurd h3 (by decide)

/-- C2 amended: in the orchestrator's single-query exact path, Python's
stable `sorted(..., reverse=True)` keeps equal-score entries in original
catalog insertion order: the equal-score entries of the output form a
sublist of the threshold-kept catalog entries in catalog order.
`VectorStore.search` gives no such guarantee — its `np.argsort` runs
with the default, documented-unstable kind, and the two-row evaluation
of the counterexample (inside numpy's insertion-sort regime, where the
real behaviour is deterministic) already emits the tie in reverse
insertion order. -/
theorem C2_amended_tie_order (sqrtFn : ℚ → ℚ) (s : VectorStore) (t : Vec)
    (threshold : ℚ) (k : ℕ) (c : ℚ) :
    List.Sublist
      ((findMatchesSingleExact sqrtFn s t threshold k).filter (fun p => p.2 = c))
      (((s.items.zip (s.embeddings.map
            (fun row => cosineSimilarityFull sqrtFn t row))).filter
          (fun p => threshold ≤ p.2)).filter (fun p => p.2 = c)) := by
  rw [findMatchesSingleExact]
  have hstable :
      (List.insertionSort (fun p q : String × ℚ => q.2 ≤ p.2)
          ((s.items.zip (s.embeddings.map
              (fun row => cosineSimilarityFull sqrtFn t row))).filter
            (fun p => threshold ≤ p.2))).filter (fun p => decide (p.2 = c))
        = ((s.items.zip (s.embeddings.map
              (fun row => cosineSimilarityFull sqrtFn t row))).filter
            (fun p => threshold ≤ p.2)).filter (fun p => decide (p.2 = c)) := by
    refine filter_insertionSort _ _ _ ?_
    intro x _ y _ hpx hpy
    have hx' : x.2 = c := of_decide_eq_true hpx
    have hy' : y.2 = c := of_decide_eq_true hpy
    rw [hx', hy']
  have h1 := (List.take_sublist k
    (List.insertionSort (fun p q : String × ℚ => q.2 ≤ p.2)
      ((s.items.zip (s.embeddings.map
          (fun row => cosineSimilarityFull sqrtFn t row))).filter
        (fun p => threshold ≤ p.2)))).filter (fun p => decide (p.2 = c))
  rw [hstable] at h1
  exact h1

theorem saveIndex_ok_fields {s : VectorStore} {ow h5 mo : Bool} {d : SavedIndex}
    (h : s.saveIndex ow h5 mo = .ok d) :
    d.embeddings = s.embeddings ∧ d.items = s.items := by
  rw [VectorStore.saveIndex] at h
  cases hk : s.kmeans with
  | none => rw [hk] at h; exact absurd h (by simp)
  | some km =>
    rw [hk] at h
    dsimp only at h
    by_cases hc : (!ow && (h5 || mo)) = true
    · rw [if_pos hc] at h
      exact absurd h (by simp)
    · rw [if_neg hc] at h
      injection h with h2
      rw [← h2]
      exact ⟨rfl, rfl⟩

/-- C3 counterexample: the constructor's dummy sentinel — a single row
whose first coordinate is `0`, with items `["dummy"]` — is stored
without normalisation, so a perfectly well-behaved input row (`[0, 2]`,
norm `2`, exact square root available) ends up stored with squared norm
`4 ≠ 1`, violating the invariant right after construction. -/
theorem C3_counterexample :
    (VectorStore.init (fun x => if x = 4 then 2 else if x = 1 then 1 else 0)
        [[0, 2]] ["dummy"]).embeddings = [[0, 2]]
    ∧ GoodRow (fun x => if x = 4 then 2 else if x = 1 then 1 else 0) [0, 2]
    ∧ ¬ UnitRows (VectorStore.init (fun x => if x = 4 then 2 else if x = 1 then 1 else 0)
        [[0, 2]] ["dummy"]) := by
  refine ⟨?_, ?_, ?_⟩
  · norm_num [VectorStore.init]
  · constructor
    · norm_num [sumSq, dot]
    · norm_num [sumSq, dot]
  · intro hu
    have h1 : ([0, 2] : Vec) ∈ (VectorStore.init
        (fun x => if x = 4 then 2 else if x = 1 then 1 else 0) [[0, 2]] ["dummy"]).embeddings := by
      norm_num [VectorStore.init]
    have := hu _ h1
    norm_num [sumSq, dot] at this

/-- C3 amended: the normalisation invariant (every stored row has unit
L2 norm) holds after construction, `add_items` and `load_index` — except
on the constructor's dummy-sentinel path, and provided every incoming row
has nonzero norm with the square root exact there (the floating-tolerance
idealisation): (a) constructing a store from a non-sentinel catalog of
good rows yields only unit rows; (b) `add_items` with good new rows on a
store of unit rows yields only unit rows; (c) `load_index` of artifacts
saved from a store of unit rows yields only unit rows. -/
theorem C3_amended_normalization_invariant (sqrtFn : ℚ → ℚ) (emb : List Vec)
    (items : List String) (s sDst : VectorStore) (newEmb : List Vec)
    (newItems : List String) (ow h5 mo : Bool) (d : SavedIndex)
    (hsent : ¬ (emb.length = 1 ∧ (emb.headD []).headD 0 = 0 ∧ items = ["dummy"]))
    (hemb : ∀ v ∈ emb, GoodRow sqrtFn v)
    (hnew : ∀ v ∈ newEmb, GoodRow sqrtFn v)
    (hs : UnitRows s) (hsave : s.saveIndex ow h5 mo = .ok d) :
    UnitRows (VectorStore.init sqrtFn emb items)
    ∧ UnitRows (s.addItems sqrtFn newEmb newItems)
    ∧ UnitRows (sDst.loadIndex d) := by
  refine ⟨?_, ?_, ?_⟩
  · intro v hv
    rw [VectorStore.init, if_neg hsent] at hv
    rcases List.mem_map.mp hv with ⟨u, hu, rfl⟩
    exact sumSq_normalize sqrtFn u (hemb u hu).2 (hemb u hu).1
  · intro v hv
    rw [VectorStore.addItems] at hv
    rcases List.mem_append.mp hv with h | h
    · exact hs v h
    · rcases List.mem_map.mp h with ⟨u, hu, rfl⟩
      exact sumSq_normalize sqrtFn u (hnew u hu).2 (hnew u hu).1
  · intro v hv
    simp only [VectorStore.loadIndex] at hv
    rw [(saveIndex_ok_fields hsave).1] at hv
    exact hs v hv

theorem C3_witness :
    GoodRow (fun x => x) [1, 0]
    ∧ UnitRows (VectorStore.init (fun x => x) [[1, 0], [0, 1]] ["a", "b"]) :=
  ⟨by constructor <;> norm_num [sumSq, dot],
    (C3_amended_normalization_invariant (fun x => x) [[1, 0], [0, 1]] ["a", "b"]
      ⟨[], [], some ⟨[]⟩, some []⟩ ⟨[], [], none, none⟩ [] [] true false false
      ⟨[], [], ⟨[]⟩, []⟩
      (by norm_num)
      (by intro v hv; fin_cases hv <;> constructor <;> norm_num [sumSq, dot])
      (by intro v hv; exact absurd hv (List.not_mem_nil v))
      (by intro v hv; exact absurd hv (List.not_mem_nil v))
      (by rfl)).1⟩

/-- C4 counterexample: with a catalog of 4 items and a request of
exactly 4 clusters (`n_clusters = catalog_size`, so `n_clusters >=
catalog_size` as the claim reads), `build_index` does NOT clamp: the
guard is `len(items) < n_clusters`, so KMeans is fitted with 4 clusters,
which is not `<= catalog_size - 1 = 3`. -/
theorem C4_counterexample :
    effectiveNClusters 4 4 = some 4
    ∧ ((VectorStore.buildIndex
          (fun n _ => (⟨List.replicate n []⟩, List.replicate 4 0))
          ⟨List.replicate 4 [1], ["a", "b", "c", "d"], none, none⟩ 4).kmeans.getD
        ⟨[]⟩).centers.length = 4
    ∧ ¬ (4 ≤ 4 - 1) := by
  refine ⟨by norm_num [effectiveNClusters], ?_, by omega⟩
  norm_num [VectorStore.buildIndex]

/-- C4 amended: the clamp fires only when `n_clusters` STRICTLY exceeds
the catalog size; then the count handed to KMeans is
`max 1 (min (catalog_size - 1) (catalog_size / 2))`, which is at least 1
and at most `catalog_size - 1`, the fit is run with that count, and no
error path exists (`buildIndex` is total).  When
`n_clusters = catalog_size`, the requested count is used unchanged. -/
theorem C4_amended_cluster_clamp (fit : ℕ → List Vec → KMeansModel × List ℕ)
    (s : VectorStore) (nClusters : ℕ)
    (h2 : 2 ≤ s.items.length) (hgt : s.items.length < nClusters) :
    effectiveNClusters s.items.length nClusters
      = some (max 1 (min (s.items.length - 1) (s.items.length / 2)))
    ∧ 1 ≤ max 1 (min (s.items.length - 1) (s.items.length / 2))
    ∧ max 1 (min (s.items.length - 1) (s.items.length / 2)) ≤ s.items.length - 1
    ∧ s.buildIndex fit nClusters =
        { s with
          kmeans := some (fit (max 1 (min (s.items.length - 1) (s.items.length / 2)))
            s.embeddings).1,
          clusters := some (fit (max 1 (min (s.items.length - 1) (s.items.length / 2)))
            s.embeddings).2 }
    ∧ s.buildIndex fit s.items.length =
        { s with kmeans := some (fit s.items.length s.embeddings).1,
                 clusters := some (fit s.items.length s.embeddings).2 } := by
  refine ⟨?_, le_max_left _ _, ?_, ?_, ?_⟩
  · rw [effectiveNClusters, if_neg (by omega), if_pos hgt]
  · omega
  · rw [VectorStore.buildIndex, if_neg (by omega), if_pos hgt]
  · rw [VectorStore.buildIndex, if_neg (by omega), if_neg (by omega)]

theorem C4_witness :
    (2 ≤ 4 ∧ 4 < 9)
    ∧ effectiveNClusters 4 9 = some (max 1 (min (4 - 1) (4 / 2))) :=
  ⟨⟨by omega, by omega⟩,
    (C4_amended_cluster_clamp (fun n _ => (⟨List.replicate n []⟩, List.replicate 4 0))
      ⟨List.replicate 4 [1], ["a", "b", "c", "d"], none, none⟩ 9
      (by norm_num) (by norm_num)).1⟩

/-- C5 counterexample: with a partition model present and
`n_probe_clusters = 0`, the selected-cluster list
`np.argsort(distances)[:0]` is empty, so the approximate path raises
`ValueError` from `np.concatenate([])` at vector_store.py line 241
BEFORE the `len(all_indices) == 0` fallback check is reached — the call
errors instead of returning the exact-mode result. -/
theorem C5_counterexample :
    VectorStore.search (fun x => x) ⟨[[1, 0]], ["a"], some ⟨[[1, 0]]⟩, some [0]⟩
        [1, 0] 1 true 0 = .error .concatenateEmpty
    ∧ VectorStore.search (fun x => x) ⟨[[1, 0]], ["a"], some ⟨[[1, 0]]⟩, some [0]⟩
        [1, 0] 1 false 0 = .ok [("a", 1)] := by
  constructor
  · exact search_approx_concat_error (fun x => x) _ [1, 0] 1 0 ⟨[[1, 0]]⟩
      (by norm_num) rfl (by rw [List.take_zero])
  · norm_num [VectorStore.search, VectorStore.searchExact, exactTopIndices, takeLast,
      argsortAsc, valLE, normalize, scaleDiv, l2norm, sumSq, dot, List.insertionSort,
      List.orderedInsert, List.range_succ]

/-- C5 amended: approximate-mode search returns exactly the exact-mode
result (a) when no partition model exists, for every `n_probe_clusters`,
and (b) when at least one cluster is probed but the probed clusters
contain no catalog rows (the recursive fallback re-normalises the
already-normalised query, which is idempotent when the square root is
exact at the query's sum of squares and at 1); but (c) when the
probed-cluster selection itself is empty (`n_probe_clusters = 0`), the
approximate path raises `ValueError` from `np.concatenate([])` instead
of falling back. -/
theorem C5_amended_approx_fallback (sqrtFn : ℚ → ℚ) (s : VectorStore) (q : Vec)
    (k nProbe : ℕ) (km : KMeansModel)
    (hq : sqrtFn (sumSq q) ^ 2 = sumSq q) (h1 : sqrtFn 1 = 1) :
    (s.kmeans = none →
      VectorStore.search sqrtFn s q k true nProbe
        = VectorStore.search sqrtFn s q k false nProbe)
    ∧ (s.kmeans = some km →
       (argsortAsc (km.transform sqrtFn (normalize sqrtFn q))).take nProbe ≠ [] →
       probeIndices (s.clusters.getD [])
         (km.transform sqrtFn (normalize sqrtFn q)) nProbe = [] →
       VectorStore.search sqrtFn s q k true nProbe
         = VectorStore.search sqrtFn s q k false nProbe)
    ∧ (s.kmeans = some km → s.items.length ≠ 0 →
       (argsortAsc (km.transform sqrtFn (normalize sqrtFn q))).take nProbe = [] →
       VectorStore.search sqrtFn s q k true nProbe = .error .concatenateEmpty) := by
  refine ⟨?_, ?_, ?_⟩
  · intro hkm
    by_cases hne : s.items.length = 0
    · rw [search_empty _ _ _ _ _ _ hne, search_empty _ _ _ _ _ _ hne]
    · rw [search_approx_no_model _ _ _ _ _ hne hkm, search_exact_mode _ _ _ _ _ hne]
  · intro hkm hcl hpi
    by_cases hne : s.items.length = 0
    · rw [search_empty _ _ _ _ _ _ hne, search_empty _ _ _ _ _ _ hne]
    · rw [search_approx_fallback _ _ _ _ _ _ hne hkm hcl hpi,
        search_exact_mode _ _ _ _ _ hne, normalize_idempotent sqrtFn q hq h1]
  · intro hkm hne hcl
    exact search_approx_concat_error sqrtFn s q k nProbe km hne hkm hcl

theorem C5_witness :
    ((argsortAsc (KMeansModel.transform (fun x => x) ⟨[[1, 0]]⟩
        (normalize (fun x => x) [1, 0]))).take 1 ≠ [])
    ∧ (probeIndices ((some [5] : Option (List ℕ)).getD [])
        (KMeansModel.transform (fun x => x) ⟨[[1, 0]]⟩ (normalize (fun x => x) [1, 0])) 1 = [])
    ∧ VectorStore.search (fun x => x) ⟨[[1, 0]], ["a"], some ⟨[[1, 0]]⟩, some [5]⟩
        [1, 0] 1 true 1
      = VectorStore.search (fun x => x) ⟨[[1, 0]], ["a"], some ⟨[[1, 0]]⟩, some [5]⟩
        [1, 0] 1 false 1 := by
  have hcl : (argsortAsc (KMeansModel.transform (fun x => x) ⟨[[1, 0]]⟩
      (normalize (fun x => x) [1, 0]))).take 1 ≠ [] := by
    norm_num [KMeansModel.transform, normalize, scaleDiv, l2norm, sumSq, dot,
      euclidSq, argsortAsc, valLE, List.insertionSort, List.orderedInsert, List.range_succ]
  have hpi : probeIndices ((some [5] : Option (List ℕ)).getD [])
      (KMeansModel.transform (fun x => x) ⟨[[1, 0]]⟩ (normalize (fun x => x) [1, 0])) 1 = [] := by
    norm_num [probeIndices, KMeansModel.transform, normalize, scaleDiv, l2norm, sumSq, dot,
      euclidSq, argsortAsc, valLE, List.insertionSort, List.orderedInsert, List.range_succ]
  exact ⟨hcl, hpi,
    (C5_amended_approx_fallback (fun x => x) ⟨[[1, 0]], ["a"], some ⟨[[1, 0]]⟩, some [5]⟩
      [1, 0] 1 1 ⟨[[1, 0]]⟩ (by norm_num [sumSq, dot]) rfl).2.1 rfl hcl hpi⟩

theorem getEmbedding_ok_length {preprocess : String → String} {encode : String → Vec}
    {useCache : Bool} {cacheSize : ℕ} {cache : Cache} {name : String} {v : Vec} {c' : Cache}
    (hok : getEmbedding preprocess encode useCache cacheSize cache name = .ok (v, c'))
    (h : cache.length ≤ cacheSize) : c'.length ≤ cacheSize := by
  rw [getEmbedding] at hok
  dsimp only at hok
  split at hok
  · split at hok
    · injection hok with h2
      injection h2 with hv hc
      subst hc
      exact h
    · split at hok
      · split at hok
        · exact absurd hok (by simp)
        · injection hok with h2
          injection h2 with hv hc
          subst hc
          simpa using h
      · rename_i hc0
        injection hok with h2
        injection h2 with hv hc
        subst hc
        simp only [List.length_append, List.length_cons, List.length_nil]
        omega
  · injection hok with h2
    injection h2 with hv hc
    subst hc
    exact h

theorem getEmbedding_step_length_le (preprocess : String → String) (encode : String → Vec)
    (useCache : Bool) (cacheSize : ℕ) (cache : Cache) (name : String)
    (h : cache.length ≤ cacheSize) :
    (match getEmbedding preprocess encode useCache cacheSize cache name with
      | .ok r => r.2
      | .error _ => cache).length ≤ cacheSize := by
  cases hok : getEmbedding preprocess encode useCache cacheSize cache name with
  | ok r =>
    obtain ⟨v, c'⟩ := r
    exact getEmbedding_ok_length hok h
  | error e => exact h

theorem runGetEmbeddings_length_le (preprocess : String → String) (encode : String → Vec)
    (useCache : Bool) (cacheSize : ℕ) (names : List String) (cache : Cache)
    (h : cache.length ≤ cacheSize) :
    (runGetEmbeddings preprocess encode useCache cacheSize names cache).length ≤ cacheSize := by
  induction names generalizing cache with
  | nil => exact h
  | cons n t ih =>
    exact ih _ (getEmbedding_step_length_le preprocess encode useCache cacheSize cache n h)

/-- C6: with caching enabled, (a) after any sequence of `get_embedding`
calls starting from the empty cache, the cache holds at most
`cache_size` entries; (b) a miss while the cache is exactly at capacity
pops the first-inserted entry and appends the new one, so exactly one
entry is evicted and (c) the size is back at `cache_size`. -/
theorem C6_cache_bound_and_eviction (preprocess : String → String) (encode : String → Vec)
    (cacheSize : ℕ) (names : List String) (cache : Cache) (name : String)
    (hfull : cache.length = cacheSize) (hsz : 1 ≤ cacheSize)
    (hmiss : ∀ p ∈ cache, ¬ p.1 = preprocess name) :
    (runGetEmbeddings preprocess encode true cacheSize names []).length ≤ cacheSize
    ∧ getEmbedding preprocess encode true cacheSize cache name
        = .ok (encode (preprocess name),
            cache.tail ++ [(preprocess name, encode (preprocess name))])
    ∧ (cache.tail ++ [(preprocess name, encode (preprocess name))]).length = cacheSize := by
  refine ⟨runGetEmbeddings_length_le _ _ _ _ _ _ (by simp), ?_, ?_⟩
  · rw [getEmbedding]
    dsimp only
    have hf : cache.find? (fun p => decide (p.1 = preprocess name)) = none := by
      rw [List.find?_eq_none]
      intro p hp
      simpa using hmiss p hp
    rw [if_pos rfl, hf]
    dsimp only [Option.map_none']
    rw [if_pos (by omega)]
    cases cache with
    | nil => simp at hfull; omega
    | cons hd tl => rfl
  · rw [List.length_append, List.length_tail, hfull]
    simp only [List.length_cons, List.length_nil]
    omega

theorem C6_witness :
    ([("a", [1]), ("b", [1])] : Cache).length = 2
    ∧ getEmbedding (fun s => s) (fun _ => ([1] : Vec)) true 2 [("a", [1]), ("b", [1])] "c"
        = .ok ([1], [("b", [1]), ("c", [1])]) := by
  refine ⟨rfl, ?_⟩
  have h := (C6_cache_bound_and_eviction (fun s => s) (fun _ => ([1] : Vec)) 2
    ["a", "b"] [("a", [1]), ("b", [1])] "c" rfl (by omega)
    (by decide)).2.1
  simpa using h

/-- C7: no `DegenerateEmbeddingError` (nor any other zero-norm check)
exists in the code: constructing a store over an all-zero embedding row
divides by the zero norm and silently stores the degenerate row (NaN in
floats; the zero vector under this exact model's `x / 0 = 0`), the
stored row violates the unit-norm invariant, and the degenerate score
silently reaches search results. -/
theorem C7_zero_norm_not_reported :
    (VectorStore.init (fun x => if x = 1 then 1 else 0) [[0, 0]] ["a"]).embeddings = [[0, 0]]
    ∧ sumSq [0, 0] = 0
    ∧ ¬ UnitRows (VectorStore.init (fun x => if x = 1 then 1 else 0) [[0, 0]] ["a"])
    ∧ VectorStore.search (fun x => if x = 1 then 1 else 0)
        (VectorStore.init (fun x => if x = 1 then 1 else 0) [[0, 0]] ["a"]) [1, 0] 1 false 1
      = .ok [("a", 0)] := by
  refine ⟨?_, ?_, ?_, ?_⟩
  · norm_num [VectorStore.init, normalize, scaleDiv, l2norm, sumSq, dot]
  · norm_num [sumSq, dot]
  · intro hu
    have h1 : ([0, 0] : Vec) ∈ (VectorStore.init (fun x => if x = 1 then 1 else 0)
        [[0, 0]] ["a"]).embeddings := by
      norm_num [VectorStore.init, normalize, scaleDiv, l2norm, sumSq, dot]
    have := hu _ h1
    norm_num [sumSq, dot] at this
  · norm_num [VectorStore.init, VectorStore.search, VectorStore.searchExact, normalize,
      scaleDiv, l2norm, sumSq, dot, exactTopIndices, takeLast, argsortAsc, valLE,
      List.insertionSort, List.orderedInsert, List.range_succ]

/-- C8 counterexample: with `overwrite` left at its default `true` — the
caller has not explicitly opted into overwriting — a save into a
directory where BOTH artifacts already exist succeeds and replaces them;
no FileExistsError is raised. -/
theorem C8_counterexample :
    VectorStore.saveIndex ⟨[[1]], ["a"], some ⟨[[1]]⟩, some [0]⟩ true true true
      = .ok ⟨[[1]], ["a"], ⟨[[1]]⟩, [0]⟩ := rfl

/-- C8 amended: `save_index` fails with FileExistsError exactly when
`overwrite=False` is explicitly passed and at least one of the two
artifacts exists; the default `overwrite=True` silently replaces
existing artifacts. -/
theorem C8_amended_overwrite (s : VectorStore) (km : KMeansModel)
    (ow h5 mo : Bool) (hk : s.kmeans = some km) :
    s.saveIndex ow h5 mo = .error .fileExists ↔ ow = false ∧ (h5 || mo) = true := by
  rw [VectorStore.saveIndex, hk]
  dsimp only
  cases ow <;> cases h5 <;> cases mo <;> simp

theorem C8_witness :
    VectorStore.saveIndex ⟨[[1]], ["a"], some ⟨[[1]]⟩, some [0]⟩ false true false
      = .error .fileExists :=
  (C8_amended_overwrite ⟨[[1]], ["a"], some ⟨[[1]]⟩, some [0]⟩ ⟨[[1]]⟩ false true false
    rfl).mpr ⟨rfl, rfl⟩

/-- C9: the batch path `get_embeddings` bypasses the cache entirely —
with the preprocessed name already present in the cache, the producer is
still invoked on the full preprocessed list (including the cached name),
and nothing is read from or written to the cache (the function neither
receives nor returns one). -/
theorem C9_batch_path_bypasses_cache :
    (([("acme", [1])] : Cache).find? (fun p => p.1 = "acme")).isSome = true
    ∧ getEmbeddingsProducerInput (fun _ => "acme") ["Acme Corp"] = ["acme"]
    ∧ getEmbeddings (fun _ => "acme") (fun l => l.map (fun _ => [2])) ["Acme Corp"] = [[2]] :=
  ⟨rfl, rfl, rfl⟩

end CNM
